import Mathlib

/-!
Shallow embedding of the bindolo game-session core
(`src/bindolo_notepad/state.py` and `src/bindolo_notepad/game.py`).

The roster `usersdb` is a Python `dict[str, UserInfo]`; Python dicts keep
insertion order, so it is modelled as an association list in insertion
order.  The global `app_state` is modelled by `AppState`.  Each Flask
endpoint becomes a pure function from the combined state (`Sys`) and its
request inputs to the new state plus a result describing the HTTP
response.

Spec names vs. code names:
  Registration  = `GameState.WAITING_FOR_NEW_PLAYERS`
  AwaitingRoles = `GameState.WAITING_FOR_PLAYERS`
  Definition    = `GameState.GAME_WAITING_FOR_DEFINITIONS`
  Decision      = `GameState.GAME_WAITING_FOR_DECISION_IRL`
  role          = `UserInfo.state`, submittedText = `UserInfo.text`,
  currentWord   = `AppState.word`,
  rotationOrder = `AppState.reader_order`, rotationIndex = `AppState.reader_idx`.
-/

namespace Bindolo

/-- `UserState` enum of `state.py`. -/
inductive UserState where
  | entering
  | ready
  | player
  | reader
deriving DecidableEq, Repr

/-- `UserInfo` dataclass of `state.py`: per-user role and submitted text. -/
structure UserInfo where
  state : UserState := UserState.entering
  text : String := ""
deriving DecidableEq, Repr

/-- `GameState` enum of `state.py`. -/
inductive GameState where
  | waitingForNewPlayers
  | waitingForPlayers
  | gameWaitingForDefinitions
  | gameWaitingForDecisionIrl
deriving DecidableEq, Repr

/-- `AppState` dataclass of `state.py` (the `info` field is never used by
the game logic and is omitted). -/
structure AppState where
  state : GameState := GameState.waitingForNewPlayers
  word : Option String := none
  reader_order : Option (List String) := none
  reader_idx : Nat := 0
deriving DecidableEq, Repr

/-- The two pieces of global mutable state of `state.py`: `usersdb` and
`app_state`.  The dict is an insertion-ordered association list. -/
structure Sys where
  usersdb : List (String × UserInfo)
  app : AppState
deriving DecidableEq, Repr

/-- The process-start state: empty `usersdb`, default `AppState`. -/
def init : Sys := { usersdb := [], app := {} }

/-- Python's `str.strip()`: drop leading and trailing whitespace.  Written
by structural recursion over the character list so that it evaluates inside
the kernel. -/
def pyStrip (s : String) : String :=
  ⟨List.reverse (List.dropWhile Char.isWhitespace
    (List.reverse (List.dropWhile Char.isWhitespace s.data)))⟩

/-- `usersdb.get(k)`: first binding of key `k` (keys are unique in a dict). -/
def getU : List (String × UserInfo) → String → Option UserInfo
  | [], _ => none
  | p :: rest, k => if p.1 = k then some p.2 else getU rest k

/-- Mutating the `UserInfo` object bound to key `k` in place (Python updates
the single entry holding that key; mapping over the list is the same thing
because dict keys are unique). -/
def setU (db : List (String × UserInfo)) (k : String) (f : UserInfo → UserInfo) :
    List (String × UserInfo) :=
  db.map (fun p => if p.1 = k then (p.1, f p.2) else p)

/-- `list(usersdb.keys())`. -/
def keysOf (db : List (String × UserInfo)) : List String :=
  db.map Prod.fst

/-- number of entries bound to key `k`. -/
def countKey (db : List (String × UserInfo)) (k : String) : Nat :=
  db.countP (fun p => decide (p.1 = k))

/-- number of entries whose role is `reader`. -/
def readerCount (db : List (String × UserInfo)) : Nat :=
  db.countP (fun p => decide (p.2.state = UserState.reader))

/-- `MINIMUM_PLAYERS` (defined as 3 in the repository). -/
def MINIMUM_PLAYERS : Nat := 3

/-- `check_readiness` of `state.py`: if every user is READY and there are at
least `MINIMUM_PLAYERS` of them, and the phase still allows starting, capture
the rotation on first start, pick the reader from the rotation, advance the
rotation index, assign READER/PLAYER roles and move to the definitions phase.

The `none`-rotation and empty-rotation inner branches return the state
unchanged; in Python they would raise (`assert` failure / `ZeroDivisionError`),
but they are unreachable from any state the process can actually be in (the
`waitingForPlayers` phase is only ever entered by a restart, which requires a
reader, which requires a previously captured non-empty rotation). -/
def readinessHolds (db : List (String × UserInfo)) : Bool :=
  decide (MINIMUM_PLAYERS ≤ db.length) &&
    (decide (0 < db.length) && db.all (fun p => decide (p.2.state = UserState.ready)))

/-- the role-assignment loop of `check_readiness` once `r` was picked. -/
def assignRoles (db : List (String × UserInfo)) (r : String) :
    List (String × UserInfo) :=
  db.map (fun p =>
    if p.1 = r then (p.1, { p.2 with state := UserState.reader })
    else (p.1, { p.2 with state := UserState.player }))

/-- the body of `check_readiness` under both `if`s, with `app1` the app
state after the (possible) rotation capture: select
`reader = order[reader_idx % len]`, advance the index, assign roles, move to
the definitions phase. -/
def fireReadiness (s : Sys) (app1 : AppState) : Sys :=
  match app1.reader_order with
  | none => s
  | some order =>
    if order.length = 0 then s
    else
      let idx := app1.reader_idx % order.length
      let app2 : AppState :=
        { app1 with state := GameState.gameWaitingForDefinitions,
                    reader_idx := (idx + 1) % order.length }
      { usersdb := assignRoles s.usersdb (order.getD idx ""), app := app2 }

def check_readiness (s : Sys) : Sys :=
  if readinessHolds s.usersdb then
    if s.app.state = GameState.waitingForPlayers
        ∨ s.app.state = GameState.waitingForNewPlayers then
      fireReadiness s
        (if s.app.state = GameState.waitingForNewPlayers then
          { s.app with reader_order := some (keysOf s.usersdb), reader_idx := 0 }
        else s.app)
    else s
  else s

/-- Result of the `landing` POST endpoint of `game.py`, as the arguments it
passes to the rendered template (or the redirect to the index page). -/
inductive LandingResult where
  | redirectIndex
  | page (accepted : Bool) (rejected : Bool) (user_state : Option UserState)
deriving DecidableEq, Repr

/-- `landing` (POST branch) of `game.py`, the register operation: trim the
username, redirect if empty, reject while the phase is not
`waitingForNewPlayers`, otherwise create the user if absent.  Note that the
POST branch never fills `user_state`: it renders with `user_state = None`
(only the GET branch reads the role back). -/
def landing_post (s : Sys) (raw : String) : Sys × LandingResult :=
  let username := pyStrip raw
  if username = "" then (s, LandingResult.redirectIndex)
  else if s.app.state ≠ GameState.waitingForNewPlayers then
    (s, LandingResult.page false true none)
  else
    match getU s.usersdb username with
    | some _ => (s, LandingResult.page true false none)
    | none =>
      ({ s with usersdb := s.usersdb ++ [(username, {})] },
        LandingResult.page true false none)

/-- Result of the `set_user_ready` endpoint of `game.py`. -/
inductive ReadyResult where
  | missingUsername
  | notFound
  | ok (state : Option UserState) (started : Bool)
deriving DecidableEq, Repr

/-- `set_user_ready` of `game.py`, the markReady operation: set the user's
role to READY unconditionally, then run `check_readiness`.  The returned
`state` is read from the same `UserInfo` object after `check_readiness`, so
it reflects any role assignment that just happened. -/
def set_user_ready (s : Sys) (username : String) : Sys × ReadyResult :=
  if username = "" then (s, ReadyResult.missingUsername)
  else
    match getU s.usersdb username with
    | none => (s, ReadyResult.notFound)
    | some _ =>
      let db1 := setU s.usersdb username (fun u => { u with state := UserState.ready })
      let s2 := check_readiness { s with usersdb := db1 }
      (s2, ReadyResult.ok ((getU s2.usersdb username).map UserInfo.state)
        (decide (s2.app.state ≠ GameState.waitingForNewPlayers)))

/-- Role-dependent payload of the `play_submit` endpoint (`word`/`text`
fields of the posted JSON or form; `none` = field absent). -/
structure SubmitPayload where
  word : Option String := none
  text : Option String := none
deriving DecidableEq, Repr

/-- Result of the `play_submit` endpoint of `game.py`. -/
inductive SubmitResult where
  | notAuthenticated
  | notFound
  | validationError
  | invalidRole
  | ok (value : String) (move : Bool)
deriving DecidableEq, Repr

/-- The completion loop at the end of `play_submit`: every PLAYER must have
text that is non-empty after stripping, and every READER requires the session
word to be non-empty after stripping; other roles impose nothing. -/
def all_submitted (db : List (String × UserInfo)) (word : Option String) : Bool :=
  db.all (fun p =>
    match p.2.state with
    | UserState.player => decide (pyStrip p.2.text ≠ "")
    | UserState.reader =>
      match word with
      | some w => decide (pyStrip w ≠ "")
      | none => false
    | _ => true)

/-- `play_submit` of `game.py`: dispatch on the caller's role.  A PLAYER
needs a `text` field (the empty string is accepted); a READER needs truthy
(present and non-empty) `word` and `text`; any other role is rejected.  After
a successful store the completion predicate is recomputed in full and, when
it holds, the phase becomes the decision phase. -/
def play_submit (s : Sys) (username : String) (p : SubmitPayload) :
    Sys × SubmitResult :=
  if username = "" then (s, SubmitResult.notAuthenticated)
  else
    match getU s.usersdb username with
    | none => (s, SubmitResult.notFound)
    | some u =>
      match u.state with
      | UserState.player =>
        match p.text with
        | none => (s, SubmitResult.validationError)
        | some t =>
          let s1 : Sys :=
            { s with usersdb := setU s.usersdb username (fun v => { v with text := t }) }
          if all_submitted s1.usersdb s1.app.word then
            ({ s1 with app := { s1.app with
                state := GameState.gameWaitingForDecisionIrl } },
              SubmitResult.ok t true)
          else (s1, SubmitResult.ok t false)
      | UserState.reader =>
        if p.word.getD "" = "" ∨ p.text.getD "" = "" then
          (s, SubmitResult.validationError)
        else
          let db1 := setU s.usersdb username (fun v => { v with text := p.text.getD "" })
          let s1 : Sys :=
            { usersdb := db1, app := { s.app with word := some (p.word.getD "") } }
          if all_submitted s1.usersdb s1.app.word then
            ({ s1 with app := { s1.app with
                state := GameState.gameWaitingForDecisionIrl } },
              SubmitResult.ok (p.text.getD "") true)
          else (s1, SubmitResult.ok (p.text.getD "") false)
      | _ => (s, SubmitResult.invalidRole)

/-- Result of the `reading_restart` endpoint of `game.py`. -/
inductive RestartResult where
  | notAuthenticated
  | notFound
  | unauthorized
  | ok
deriving DecidableEq, Repr

/-- `reading_restart` of `game.py`, the restart operation: only a READER may
restart; the phase goes back to `waitingForPlayers`, the word is cleared, and
every user is reset to ENTERING with empty text.  `reader_order` and
`reader_idx` are not touched. -/
def reading_restart (s : Sys) (username : String) : Sys × RestartResult :=
  if username = "" then (s, RestartResult.notAuthenticated)
  else
    match getU s.usersdb username with
    | none => (s, RestartResult.notFound)
    | some u =>
      if u.state ≠ UserState.reader then (s, RestartResult.unauthorized)
      else
        let db1 := s.usersdb.map (fun p => (p.1, ({ state := UserState.entering, text := "" } : UserInfo)))
        let app1 : AppState :=
          { s.app with state := GameState.waitingForPlayers, word := none }
        ({ usersdb := db1, app := app1 }, RestartResult.ok)

/-- The reader's view in the `reading` endpoint of `game.py`: when the caller
is the READER, the texts shown are those of **every** user whose text is
non-empty (no filtering by role, no username attached); anyone else gets an
empty list.  The endpoint shuffles the list before rendering; the shuffle is
a permutation, so this is the list in roster order. -/
def reading_player_texts (s : Sys) (username : String) : List String :=
  match getU s.usersdb username with
  | some u =>
    if u.state = UserState.reader then
      (s.usersdb.filter (fun p => decide (p.2.text ≠ ""))).map (fun p => p.2.text)
    else []
  | none => []

/-- One externally triggerable operation of the core, as a step relation. -/
inductive Step : Sys → Sys → Prop where
  | register (s : Sys) (id : String) : Step s (landing_post s id).1
  | markReady (s : Sys) (id : String) : Step s (set_user_ready s id).1
  | submit (s : Sys) (id : String) (p : SubmitPayload) : Step s (play_submit s id p).1
  | restart (s : Sys) (id : String) : Step s (reading_restart s id).1

/-- States reachable from process start by register / markReady / submit /
restart operations. -/
inductive Reachable : Sys → Prop where
  | init : Reachable init
  | step {s s' : Sys} : Reachable s → Step s s' → Reachable s'

/-- The internal invariant maintained by every operation: roster keys are
unique; at most one user holds the READER role; in the two waiting phases
every role is ENTERING or READY; in the definitions/decision phases nobody
is still ENTERING. -/
def INV (s : Sys) : Prop :=
  (keysOf s.usersdb).Nodup ∧
  readerCount s.usersdb ≤ 1 ∧
  ((s.app.state = GameState.waitingForNewPlayers ∨
      s.app.state = GameState.waitingForPlayers) →
    ∀ p ∈ s.usersdb, p.2.state = UserState.entering ∨ p.2.state = UserState.ready) ∧
  ((s.app.state = GameState.gameWaitingForDefinitions ∨
      s.app.state = GameState.gameWaitingForDecisionIrl) →
    ∀ p ∈ s.usersdb, p.2.state ≠ UserState.entering)

/-- A roster built from a name list by one per-name `UserInfo`. -/
def dbOf (l : List String) (g : String → UserInfo) : List (String × UserInfo) :=
  l.map (fun nm => (nm, g nm))

/-- freshly created user (`UserInfo()` defaults). -/
def uEnter : UserInfo := {}

/-- a user that has pressed ready. -/
def uReady : UserInfo := { state := UserState.ready }

/-- role dealt by `check_readiness` once `r` was picked as reader. -/
def roleAssigned (r nm : String) : UserState :=
  if nm = r then UserState.reader else UserState.player

/-- register every name in order (each a `landing` POST). -/
def registerAll (names : List String) (s : Sys) : Sys :=
  names.foldl (fun t nm => (landing_post t nm).1) s

/-- every participant presses ready in roster order. -/
def readyAll (names : List String) (s : Sys) : Sys :=
  names.foldl (fun t nm => (set_user_ready t nm).1) s

/-- the round's valid submission: the reader sends word `"w"` and text
`"y"`, players send text `"x"`. -/
def roundPayload (r nm : String) : SubmitPayload :=
  if nm = r then { word := some "w", text := some "y" } else { text := some "x" }

/-- every participant submits validly, in roster order. -/
def submitAll (names : List String) (r : String) (s : Sys) : Sys :=
  names.foldl (fun t nm => (play_submit t nm (roundPayload r nm)).1) s

/-- the text stored for each participant once it has submitted in a round
with reader `r`. -/
def tTarget (r nm : String) : String := if nm = r then "y" else "x"

/-- the session word halfway through the round's submissions: set once the
reader (already) submitted, i.e. once `r` is among the processed prefix. -/
def wordAt (r : String) (P : List String) : Option String :=
  if r ∈ P then some "w" else none

/-- a participant's info after role assignment, before submitting. -/
def uPart (r nm : String) : UserInfo :=
  { state := roleAssigned r nm, text := "" }

/-- a participant's info after role assignment and its round submission. -/
def uFull (r nm : String) : UserInfo :=
  { state := roleAssigned r nm, text := tTarget r nm }

/-- `n` successive `register(id)` calls with the same id. -/
def registerMany (s : Sys) (id : String) : Nat → Sys
  | 0 => s
  | n + 1 => registerMany (landing_post s id).1 id n

/-- the participant currently holding the READER role, if any. -/
def currentReader (s : Sys) : Option String :=
  (s.usersdb.find? (fun p => decide (p.2.state = UserState.reader))).map Prod.fst

/-- One full round played from a between-rounds state: everyone marks ready
(which assigns roles and starts the round), everyone submits validly, and
the reader restarts.  Returns the reader of the round and the new state. -/
def playRound (names : List String) (s : Sys) : Option String × Sys :=
  let s1 := readyAll names s
  match currentReader s1 with
  | none => (none, s1)
  | some r => (some r, (reading_restart (submitAll names r s1) r).1)

/-- `N` consecutive rounds; returns the list of round readers. -/
def playRounds (names : List String) : Nat → Sys → List (Option String) × Sys
  | 0, s => ([], s)
  | N + 1, s =>
    let first := playRound names s
    let rest := playRounds names N first.2
    (first.1 :: rest.1, rest.2)

/-- Closed form of the between-rounds state before round `n` (0-indexed):
everyone ENTERING with empty text; before the very first round the phase is
still registration and no rotation exists, afterwards the phase is
`waitingForPlayers` and the rotation is the registration order with index
`n % K`. -/
def mkRound (names : List String) (n : Nat) : Sys :=
  { usersdb := dbOf names (fun _ => uEnter),
    app := { state := if n = 0 then GameState.waitingForNewPlayers
                      else GameState.waitingForPlayers,
             word := none,
             reader_order := if n = 0 then none else some names,
             reader_idx := n % names.length } }

/-- Closed form of the state right after the readiness check of round `n`
assigned roles: the reader is the rotation entry `n % K`. -/
def sDef (names : List String) (n : Nat) : Sys :=
  { usersdb := dbOf names (uPart (names.getD (n % names.length) "")),
    app := { state := GameState.gameWaitingForDefinitions,
             word := none,
             reader_order := some names,
             reader_idx := (n + 1) % names.length } }

/-- Closed form of the state after every valid submission of round `n`. -/
def sSub (names : List String) (n : Nat) : Sys :=
  { usersdb := dbOf names (uFull (names.getD (n % names.length) "")),
    app := { state := GameState.gameWaitingForDecisionIrl,
             word := some "w",
             reader_order := some names,
             reader_idx := (n + 1) % names.length } }

/-! Concrete trace used by the counterexamples: register `"a"`, `"b"`,
`"c"`, everyone presses ready (the game starts, `"a"` becomes READER),
then further operations that the claims say are harmless. -/

def cx0 : Sys := (landing_post init "a").1
def cx1 : Sys := (landing_post cx0 "b").1
def cx2 : Sys := (landing_post cx1 "c").1
def cx3 : Sys := (set_user_ready cx2 "a").1
def cx4 : Sys := (set_user_ready cx3 "b").1
def cx5 : Sys := (set_user_ready cx4 "c").1
def cx6 : Sys := (set_user_ready cx5 "a").1
def cx7 : Sys := (play_submit cx6 "b" { text := some "x" }).1
def cx8 : Sys := (play_submit cx5 "b" { text := some "x" }).1
def cx9 : Sys := (play_submit cx8 "c" { text := some "z" }).1
def cx10 : Sys := (play_submit cx9 "a" { word := some "w", text := some "y" }).1

theorem getU_nil (k : String) : getU [] k = none := rfl

theorem getU_cons (p : String × UserInfo) (rest : List (String × UserInfo))
    (k : String) : getU (p :: rest) k = if p.1 = k then some p.2 else getU rest k := rfl

theorem setU_nil (k : String) (f : UserInfo → UserInfo) : setU [] k f = [] := rfl

theorem setU_cons (p : String × UserInfo) (rest : List (String × UserInfo))
    (k : String) (f : UserInfo → UserInfo) :
    setU (p :: rest) k f = (if p.1 = k then (p.1, f p.2) else p) :: setU rest k f := rfl

theorem dbOf_nil (g : String → UserInfo) : dbOf [] g = [] := rfl

theorem dbOf_cons (a : String) (l : List String) (g : String → UserInfo) :
    dbOf (a :: l) g = (a, g a) :: dbOf l g := rfl

theorem keysOf_nil : keysOf [] = [] := rfl

theorem keysOf_cons (p : String × UserInfo) (rest : List (String × UserInfo)) :
    keysOf (p :: rest) = p.1 :: keysOf rest := rfl

theorem keysOf_append (d1 d2 : List (String × UserInfo)) :
    keysOf (d1 ++ d2) = keysOf d1 ++ keysOf d2 := by
  simp [keysOf]

theorem beq_eq_dec (a b : String) : (a == b) = decide (a = b) := by
  by_cases h : a = b <;> simp [h]

theorem getU_append_left {d1 : List (String × UserInfo)} {k : String} {v : UserInfo}
    (d2 : List (String × UserInfo)) (h : getU d1 k = some v) :
    getU (d1 ++ d2) k = some v := by
  induction d1 with
  | nil => simp [getU_nil] at h
  | cons p rest ih =>
    rw [List.cons_append, getU_cons]
    rw [getU_cons] at h
    by_cases hp : p.1 = k
    · rwa [if_pos hp] at h ⊢
    · rw [if_neg hp] at h ⊢; exact ih h

theorem getU_append_right {d1 : List (String × UserInfo)} {k : String}
    (d2 : List (String × UserInfo)) (h : getU d1 k = none) :
    getU (d1 ++ d2) k = getU d2 k := by
  induction d1 with
  | nil => rfl
  | cons p rest ih =>
    rw [List.cons_append, getU_cons]
    rw [getU_cons] at h
    by_cases hp : p.1 = k
    · rw [if_pos hp] at h; exact absurd h (by simp)
    · rw [if_neg hp] at h ⊢; exact ih h

theorem getU_dbOf (l : List String) (g : String → UserInfo) (k : String) :
    getU (dbOf l g) k = if k ∈ l then some (g k) else none := by
  induction l with
  | nil => rfl
  | cons a l ih =>
    rw [dbOf_cons, getU_cons]
    by_cases ha : a = k
    · subst ha; simp
    · have hka : ¬ k = a := fun h => ha h.symm
      rw [if_neg ha, ih]
      simp [List.mem_cons, hka]

theorem keysOf_dbOf (l : List String) (g : String → UserInfo) :
    keysOf (dbOf l g) = l := by
  simp [keysOf, dbOf, Function.comp_def]

theorem dbOf_congr {l : List String} {g1 g2 : String → UserInfo}
    (h : ∀ nm ∈ l, g1 nm = g2 nm) : dbOf l g1 = dbOf l g2 := by
  unfold dbOf
  exact List.map_congr_left (fun nm hm => by rw [h nm hm])

theorem dbOf_append (l1 l2 : List String) (g : String → UserInfo) :
    dbOf (l1 ++ l2) g = dbOf l1 g ++ dbOf l2 g := by
  simp [dbOf]

theorem setU_append (d1 d2 : List (String × UserInfo)) (k : String)
    (f : UserInfo → UserInfo) :
    setU (d1 ++ d2) k f = setU d1 k f ++ setU d2 k f := by
  simp [setU]

theorem setU_dbOf (l : List String) (g : String → UserInfo) (k : String)
    (f : UserInfo → UserInfo) :
    setU (dbOf l g) k f = dbOf l (fun nm => if nm = k then f (g nm) else g nm) := by
  unfold setU dbOf
  rw [List.map_map]
  exact List.map_congr_left (fun nm _ => by by_cases h : nm = k <;> simp [h])

theorem keysOf_setU (db : List (String × UserInfo)) (k : String)
    (f : UserInfo → UserInfo) : keysOf (setU db k f) = keysOf db := by
  unfold keysOf setU
  rw [List.map_map]
  exact List.map_congr_left (fun p _ => by by_cases h : p.1 = k <;> simp [h])

theorem getU_setU_self (db : List (String × UserInfo)) (k : String)
    (f : UserInfo → UserInfo) :
    getU (setU db k f) k = (getU db k).map f := by
  induction db with
  | nil => rfl
  | cons p rest ih =>
    rw [setU_cons, getU_cons, getU_cons]
    by_cases hp : p.1 = k
    · simp [hp]
    · simp only [if_neg hp]
      exact ih

theorem getU_setU_other (db : List (String × UserInfo)) (k k' : String)
    (f : UserInfo → UserInfo) (h : k' ≠ k) :
    getU (setU db k f) k' = getU db k' := by
  induction db with
  | nil => rfl
  | cons p rest ih =>
    rw [setU_cons, getU_cons, getU_cons]
    by_cases hp : p.1 = k
    · have hp' : p.1 ≠ k' := by rw [hp]; exact fun e => h e.symm
      simp only [if_pos hp]
      rw [if_neg (show ¬ (p.1, f p.2).1 = k' from hp'), if_neg hp']
      exact ih
    · simp only [if_neg hp]
      by_cases hp' : p.1 = k'
      · rw [if_pos hp', if_pos hp']
      · rw [if_neg hp', if_neg hp']
        exact ih

theorem getU_eq_none_iff (db : List (String × UserInfo)) (k : String) :
    getU db k = none ↔ k ∉ keysOf db := by
  induction db with
  | nil => simp [getU_nil, keysOf_nil]
  | cons p rest ih =>
    rw [getU_cons, keysOf_cons]
    by_cases hp : p.1 = k
    · simp [hp]
    · have hkp : ¬ k = p.1 := fun e => hp e.symm
      simp [hp, hkp, ih]

theorem getU_mem {db : List (String × UserInfo)} {k : String} {u : UserInfo}
    (h : getU db k = some u) : (k, u) ∈ db := by
  induction db with
  | nil => simp [getU_nil] at h
  | cons p rest ih =>
    rw [getU_cons] at h
    by_cases hp : p.1 = k
    · rw [if_pos hp] at h
      have : p = (k, u) := by
        cases p
        simp at hp
        simp at h
        simp [hp, h]
      rw [← this]
      exact List.mem_cons_self _ _
    · rw [if_neg hp] at h
      exact List.mem_cons_of_mem _ (ih h)

theorem getU_isSome_of_mem {db : List (String × UserInfo)} {k : String}
    (h : k ∈ keysOf db) : ∃ v, getU db k = some v := by
  cases hv : getU db k with
  | none => exact absurd ((getU_eq_none_iff db k).mp hv) (by simp [h])
  | some v => exact ⟨v, rfl⟩

theorem mem_dbOf {l : List String} {nm : String} (g : String → UserInfo)
    (h : nm ∈ l) : (nm, g nm) ∈ dbOf l g := by
  unfold dbOf
  exact List.mem_map.mpr ⟨nm, h, rfl⟩

theorem countP_ext (l : List (String × UserInfo)) (p q : String × UserInfo → Bool)
    (h : ∀ a ∈ l, p a = q a) : l.countP p = l.countP q := by
  induction l with
  | nil => rfl
  | cons a rest ih =>
    rw [List.countP_cons, List.countP_cons, h a (List.mem_cons_self _ _),
      ih (fun b hb => h b (List.mem_cons_of_mem _ hb))]

theorem countKey_le_one_of_nodup {db : List (String × UserInfo)}
    (h : (keysOf db).Nodup) (k : String) : countKey db k ≤ 1 := by
  have h1 : countKey db k = (keysOf db).count k := by
    unfold countKey keysOf List.count
    rw [List.countP_map]
    exact countP_ext _ _ _ (fun p _ => by
      by_cases hp : p.1 = k <;> simp [hp, Function.comp])
  rw [h1]
  exact List.nodup_iff_count_le_one.mp h k

/-- C5: if participant `id` has role Reader, `restart(id)` sets the phase to
AwaitingRoles (`waitingForPlayers`) and clears the word, resets every
participant to ENTERING with empty text, and leaves `reader_order` and
`reader_idx` exactly as they were. -/
theorem restart_by_reader_resets (s : Sys) (id : String) (u : UserInfo)
    (hid : id ≠ "") (hget : getU s.usersdb id = some u)
    (hrole : u.state = UserState.reader) :
    (reading_restart s id).1.app.state = GameState.waitingForPlayers ∧
    (reading_restart s id).1.app.word = none ∧
    (reading_restart s id).1.app.reader_order = s.app.reader_order ∧
    (reading_restart s id).1.app.reader_idx = s.app.reader_idx ∧
    keysOf (reading_restart s id).1.usersdb = keysOf s.usersdb ∧
    (∀ p ∈ (reading_restart s id).1.usersdb,
      p.2.state = UserState.entering ∧ p.2.text = "") := by
  simp [reading_restart, hid, hget, hrole, keysOf]
  rintro a b x x1 - - rfl
  exact ⟨rfl, rfl⟩

/-- Witness for C5 at the concrete end-of-round state `cx10` with reader
`"a"`. -/
theorem restart_by_reader_resets_witness :
    getU cx10.usersdb "a" = some { state := UserState.reader, text := "y" } ∧
    ((reading_restart cx10 "a").1.app.state = GameState.waitingForPlayers ∧
      (reading_restart cx10 "a").1.app.word = none ∧
      (reading_restart cx10 "a").1.app.reader_order = cx10.app.reader_order ∧
      (reading_restart cx10 "a").1.app.reader_idx = cx10.app.reader_idx ∧
      keysOf (reading_restart cx10 "a").1.usersdb = keysOf cx10.usersdb ∧
      (∀ p ∈ (reading_restart cx10 "a").1.usersdb,
        p.2.state = UserState.entering ∧ p.2.text = "")) :=
  ⟨by decide,
    restart_by_reader_resets cx10 "a" { state := UserState.reader, text := "y" }
      (by decide) (by decide) rfl⟩

/-- C8: a submit whose caller has role Reader and whose payload lacks the
`word` field (or carries an empty `word`) fails with a validation error and
changes nothing: the whole state, `currentWord` and the reader's text
included, is returned untouched. -/
theorem reader_submit_missing_word (s : Sys) (id : String) (u : UserInfo)
    (p : SubmitPayload) (hid : id ≠ "") (hget : getU s.usersdb id = some u)
    (hrole : u.state = UserState.reader) (hw : p.word.getD "" = "") :
    play_submit s id p = (s, SubmitResult.validationError) := by
  simp [play_submit, hid, hget, hrole, hw]

/-- Witness for C8: reader `"a"` of `cx5` submitting without a `word`. -/
theorem reader_submit_missing_word_witness :
    getU cx5.usersdb "a" = some { state := UserState.reader, text := "" } ∧
    play_submit cx5 "a" { word := none, text := some "t" } =
      (cx5, SubmitResult.validationError) :=
  ⟨by decide,
    reader_submit_missing_word cx5 "a" { state := UserState.reader, text := "" }
      { word := none, text := some "t" } (by decide) (by decide) rfl rfl⟩

/-- C9: `restart` invoked by an existing participant whose role is not
Reader fails Unauthorized and returns the state completely unchanged
(phase, word, every role and text, and the rotation state). -/
theorem restart_by_non_reader (s : Sys) (id : String) (u : UserInfo)
    (hid : id ≠ "") (hget : getU s.usersdb id = some u)
    (hrole : u.state ≠ UserState.reader) :
    reading_restart s id = (s, RestartResult.unauthorized) := by
  simp [reading_restart, hid, hget, hrole]

/-- Witness for C9: player `"b"` of `cx5` trying to restart. -/
theorem restart_by_non_reader_witness :
    getU cx5.usersdb "b" = some { state := UserState.player, text := "" } ∧
    reading_restart cx5 "b" = (cx5, RestartResult.unauthorized) :=
  ⟨by decide,
    restart_by_non_reader cx5 "b" { state := UserState.player, text := "" }
      (by decide) (by decide) (by decide)⟩

end Bindolo

namespace Bindolo

theorem check_readiness_not_ready {s : Sys} {q : String × UserInfo}
    (hq : q ∈ s.usersdb) (hnr : q.2.state ≠ UserState.ready) :
    check_readiness s = s := by
  have hall : readinessHolds s.usersdb = false := by
    unfold readinessHolds
    have : s.usersdb.all (fun p => decide (p.2.state = UserState.ready)) = false := by
      rw [List.all_eq_false]
      exact ⟨q, hq, by simp [hnr]⟩
    simp [this]
  simp [check_readiness, hall]

theorem check_readiness_late {s : Sys}
    (h : s.app.state = GameState.gameWaitingForDefinitions ∨
         s.app.state = GameState.gameWaitingForDecisionIrl) :
    check_readiness s = s := by
  rcases h with h | h <;> simp [check_readiness, h]

theorem assign_eq (r : String) (p : String × UserInfo) :
    (if p.1 = r then (p.1, { p.2 with state := UserState.reader })
     else (p.1, { p.2 with state := UserState.player })) =
    (p.1, { p.2 with state := roleAssigned r p.1 }) := by
  unfold roleAssigned
  by_cases h : p.1 = r <;> simp [h]

theorem assignRoles_eq (db : List (String × UserInfo)) (r : String) :
    assignRoles db r = db.map (fun p => (p.1, { p.2 with state := roleAssigned r p.1 })) := by
  unfold assignRoles
  exact List.map_congr_left (fun p _ => assign_eq r p)

theorem check_readiness_spec (s : Sys) :
    check_readiness s = s ∨
    ∃ r, (check_readiness s).usersdb =
        s.usersdb.map (fun p => (p.1, { p.2 with state := roleAssigned r p.1 })) ∧
      (check_readiness s).app.state = GameState.gameWaitingForDefinitions := by
  unfold check_readiness
  by_cases h1 : readinessHolds s.usersdb
  · rw [if_pos h1]
    by_cases h2 : s.app.state = GameState.waitingForPlayers
        ∨ s.app.state = GameState.waitingForNewPlayers
    · rw [if_pos h2]
      unfold fireReadiness
      set app1 := (if s.app.state = GameState.waitingForNewPlayers then
          { s.app with reader_order := some (keysOf s.usersdb), reader_idx := 0 }
        else s.app) with happ1
      cases horder : app1.reader_order with
      | none => left; simp [horder]
      | some order =>
        simp only [horder]
        by_cases hlen : order.length = 0
        · left; simp [hlen]
        · right
          refine ⟨order.getD (app1.reader_idx % order.length) "", ?_, ?_⟩ <;>
            simp [hlen, assignRoles_eq]
    · rw [if_neg h2]; left; rfl
  · rw [if_neg h1]; left; rfl

end Bindolo

namespace Bindolo

theorem reachable_cx2 : Reachable cx2 :=
  Reachable.step
    (Reachable.step
      (Reachable.step Reachable.init (Step.register init "a"))
      (Step.register cx0 "b"))
    (Step.register cx1 "c")

theorem reachable_cx5 : Reachable cx5 :=
  Reachable.step
    (Reachable.step
      (Reachable.step reachable_cx2 (Step.markReady cx2 "a"))
      (Step.markReady cx3 "b"))
    (Step.markReady cx4 "c")

theorem reachable_cx6 : Reachable cx6 :=
  Reachable.step reachable_cx5 (Step.markReady cx5 "a")

theorem reachable_cx7 : Reachable cx7 :=
  Reachable.step reachable_cx6 (Step.submit cx6 "b" { text := some "x" })

theorem reachable_cx10 : Reachable cx10 :=
  Reachable.step
    (Reachable.step
      (Reachable.step reachable_cx5 (Step.submit cx5 "b" { text := some "x" }))
      (Step.submit cx8 "c" { text := some "z" }))
    (Step.submit cx9 "a" { word := some "w", text := some "y" })

/-- C2 counterexample: in the reachable definition-phase state `cx5` the
reader `"a"` calls markReady and its role is overwritten with READY, so
markReady is not role-preserving in the Definition phase. -/
theorem markReady_mutates_role_mid_game :
    Reachable cx5 ∧
    cx5.app.state = GameState.gameWaitingForDefinitions ∧
    (getU cx5.usersdb "a").map UserInfo.state = some UserState.reader ∧
    (getU (set_user_ready cx5 "a").1.usersdb "a").map UserInfo.state =
      some UserState.ready :=
  ⟨reachable_cx5, by decide, by decide, by decide⟩

/-- C2 (amended): in the Definition/Decision phases, markReady(id) sets the
caller's role to READY, leaves every other participant untouched, and leaves
the phase, word and rotation state unchanged. -/
theorem markReady_in_late_phase (s : Sys) (id : String) (u : UserInfo)
    (hid : id ≠ "") (hget : getU s.usersdb id = some u)
    (hphase : s.app.state = GameState.gameWaitingForDefinitions ∨
      s.app.state = GameState.gameWaitingForDecisionIrl) :
    (set_user_ready s id).1.app = s.app ∧
    getU (set_user_ready s id).1.usersdb id =
      some { u with state := UserState.ready } ∧
    (∀ k, k ≠ id → getU (set_user_ready s id).1.usersdb k = getU s.usersdb k) := by
  have hcr : check_readiness
      { s with usersdb := setU s.usersdb id (fun v => { v with state := UserState.ready }) } =
      { s with usersdb := setU s.usersdb id (fun v => { v with state := UserState.ready }) } :=
    check_readiness_late (by simpa using hphase)
  simp only [set_user_ready, if_neg hid, hget, hcr]
  refine ⟨trivial, ?_, ?_⟩
  · rw [getU_setU_self, hget]; rfl
  · intro k hk
    exact getU_setU_other _ _ _ _ hk

end Bindolo

namespace Bindolo

/-- C1 counterexample: the reachable state `cx6` (the reader pressed ready
again mid-round) has phase Definition and zero readers, refuting the
exactly-one-Reader form of invariant I2. -/
theorem definition_phase_without_reader :
    Reachable cx6 ∧
    cx6.app.state = GameState.gameWaitingForDefinitions ∧
    readerCount cx6.usersdb = 0 :=
  ⟨reachable_cx6, by decide, by decide⟩

/-- C4 counterexample: in the reachable state `cx7` (no participant holds
READER) a player's successful submit advances the phase to Decision although
`currentWord` is still null, refuting the only-if direction of the
completion predicate. -/
theorem submit_advances_with_empty_word :
    Reachable cx7 ∧
    (play_submit cx7 "c" { text := some "z" }).2 = SubmitResult.ok "z" true ∧
    (play_submit cx7 "c" { text := some "z" }).1.app.state =
      GameState.gameWaitingForDecisionIrl ∧
    (play_submit cx7 "c" { text := some "z" }).1.app.word = none ∧
    (∀ q ∈ (play_submit cx7 "c" { text := some "z" }).1.usersdb,
      q.2.state = UserState.player → pyStrip q.2.text ≠ "") :=
  ⟨reachable_cx7, by decide, by decide, by decide, by decide⟩

/-- C6 counterexample: re-registering the existing id `"a"` is accepted and
mutates nothing, but the POST response carries `user_state = none` rather
than the participant's existing role. -/
theorem reregistration_response_has_no_role :
    Reachable cx2 ∧
    getU cx2.usersdb "a" = some { state := UserState.entering, text := "" } ∧
    landing_post cx2 "a" = (cx2, LandingResult.page true false none) ∧
    (landing_post cx2 "a").2 ≠
      LandingResult.page true false (some UserState.entering) :=
  ⟨reachable_cx2, by decide, by decide, by decide⟩

/-- C7 counterexample: in the reachable decision-phase state `cx10` the
reader's reveal list contains the reader's own text `"y"`, which no
participant with role Player submitted. -/
theorem reveal_includes_reader_text :
    Reachable cx10 ∧
    (getU cx10.usersdb "a").map UserInfo.state = some UserState.reader ∧
    (getU cx10.usersdb "a").map UserInfo.text = some "y" ∧
    reading_player_texts cx10 "a" = ["y", "x", "z"] ∧
    (∀ q ∈ cx10.usersdb, q.2.state = UserState.player → q.2.text ≠ "y") :=
  ⟨reachable_cx10, by decide, by decide, by decide, by decide⟩

/-- C7 (amended): revealForReader(id), for a caller with role Reader,
returns exactly the non-empty submittedTexts of ALL participants (each
non-empty text with its roster multiplicity, nothing empty, no participant
id attached). -/
theorem reveal_for_reader_all_nonempty_texts (s : Sys) (id : String) (u : UserInfo)
    (hget : getU s.usersdb id = some u) (hrole : u.state = UserState.reader) :
    (∀ t ∈ reading_player_texts s id, t ≠ "") ∧
    (∀ t : String, t ≠ "" →
      (reading_player_texts s id).count t =
        s.usersdb.countP (fun p => decide (p.2.text = t))) := by
  have hview : reading_player_texts s id =
      (s.usersdb.filter (fun p => decide (p.2.text ≠ ""))).map (fun p => p.2.text) := by
    simp [reading_player_texts, hget, hrole]
  constructor
  · intro t ht
    rw [hview] at ht
    obtain ⟨p, hp, hpt⟩ := List.mem_map.mp ht
    have := List.of_mem_filter hp
    simp at this
    rw [← hpt]
    exact this
  · intro t ht
    rw [hview]
    induction s.usersdb with
    | nil => rfl
    | cons p rest ih =>
      by_cases hp : p.2.text = ""
      · rw [List.filter_cons, List.countP_cons]
        have h1 : (decide (p.2.text ≠ "")) = false := by simp [hp]
        have h2 : (decide (p.2.text = t)) = false := by
          simp [hp]; exact fun e => ht e.symm
        rw [h1, h2]
        simpa using ih
      · have h1 : (decide (p.2.text ≠ "")) = true := by simp [hp]
        rw [List.filter_cons, h1, if_pos rfl, List.map_cons, List.count_cons,
          List.countP_cons, ih]
        by_cases he : p.2.text = t
        · simp [he]
        · have hte : ¬ t = p.2.text := fun e => he e.symm
          simp [he, hte]

end Bindolo

namespace Bindolo

theorem countKey_eq_zero {db : List (String × UserInfo)} {k : String} :
    countKey db k = 0 ↔ getU db k = none := by
  rw [getU_eq_none_iff]
  unfold countKey
  rw [List.countP_eq_zero]
  constructor
  · intro h hk
    obtain ⟨p, hp, hfst⟩ := List.mem_map.mp hk
    exact absurd (by simp [hfst]) (h p hp)
  · intro h p hp
    simp only [decide_eq_true_eq]
    intro e
    exact h (List.mem_map.mpr ⟨p, hp, e⟩)

theorem landing_existing {s : Sys} {id : String} {u : UserInfo}
    (hid1 : pyStrip id = id) (hid2 : id ≠ "")
    (hphase : s.app.state = GameState.waitingForNewPlayers)
    (hget : getU s.usersdb id = some u) :
    landing_post s id = (s, LandingResult.page true false none) := by
  simp [landing_post, hid1, hid2, hphase, hget]

theorem landing_new {s : Sys} {id : String}
    (hid1 : pyStrip id = id) (hid2 : id ≠ "")
    (hphase : s.app.state = GameState.waitingForNewPlayers)
    (hget : getU s.usersdb id = none) :
    landing_post s id =
      ({ s with usersdb := s.usersdb ++ [(id, {})] },
        LandingResult.page true false none) := by
  simp [landing_post, hid1, hid2, hphase, hget]

theorem registerMany_noop {s : Sys} {id : String} {u : UserInfo}
    (hid1 : pyStrip id = id) (hid2 : id ≠ "")
    (hphase : s.app.state = GameState.waitingForNewPlayers)
    (hget : getU s.usersdb id = some u) :
    ∀ n, registerMany s id n = s := by
  intro n
  induction n with
  | zero => rfl
  | succ m ih =>
    show registerMany (landing_post s id).1 id m = s
    rw [landing_existing hid1 hid2 hphase hget]
    exact ih

/-- C6 (amended): during the Registration phase, re-registration of an
existing id is a complete no-op whose response carries no role, and any
positive number of register(id) calls from a roster without id leaves
exactly one entry with that id. -/
theorem register_idempotent :
    (∀ (s : Sys) (id : String) (u : UserInfo),
      pyStrip id = id → id ≠ "" →
      s.app.state = GameState.waitingForNewPlayers →
      getU s.usersdb id = some u →
      (∀ n, registerMany s id n = s) ∧
      landing_post s id = (s, LandingResult.page true false none)) ∧
    (∀ (s : Sys) (id : String) (n : Nat),
      pyStrip id = id → id ≠ "" →
      s.app.state = GameState.waitingForNewPlayers →
      countKey s.usersdb id = 0 → 1 ≤ n →
      countKey (registerMany s id n).usersdb id = 1) := by
  constructor
  · intro s id u hid1 hid2 hphase hget
    exact ⟨registerMany_noop hid1 hid2 hphase hget,
      landing_existing hid1 hid2 hphase hget⟩
  · intro s id n hid1 hid2 hphase hcnt hn
    obtain ⟨m, rfl⟩ : ∃ m, n = m + 1 := ⟨n - 1, by omega⟩
    have hget : getU s.usersdb id = none := countKey_eq_zero.mp hcnt
    have h1 : (landing_post s id).1 =
        { usersdb := s.usersdb ++ [(id, ({} : UserInfo))], app := s.app } := by
      rw [landing_new hid1 hid2 hphase hget]
    have hget1 : getU (s.usersdb ++ [(id, ({} : UserInfo))]) id =
        some ({} : UserInfo) := by
      rw [getU_append_right _ hget, getU_cons]
      simp
    show countKey (registerMany (landing_post s id).1 id m).usersdb id = 1
    rw [h1, @registerMany_noop
      { usersdb := s.usersdb ++ [(id, ({} : UserInfo))], app := s.app }
      id ({} : UserInfo) hid1 hid2 hphase hget1 m]
    unfold countKey at hcnt ⊢
    rw [List.countP_append, hcnt, List.countP_cons]
    simp

theorem all_submitted_of (db : List (String × UserInfo)) (word : Option String)
    (hp : ∀ q ∈ db, q.2.state = UserState.player → pyStrip q.2.text ≠ "")
    (hw : pyStrip (word.getD "") ≠ "") :
    all_submitted db word = true := by
  unfold all_submitted
  rw [List.all_eq_true]
  intro q hq
  cases hst : q.2.state with
  | player => simpa using hp q hq hst
  | reader =>
    cases word with
    | none => exact absurd rfl hw
    | some w => simpa using hw
  | entering => rfl
  | ready => rfl

end Bindolo

namespace Bindolo

/-- C4 (amended): after any successful submit, if every Player's stored
text is non-empty after stripping and the session word is non-empty after
stripping, then the phase is the decision phase. -/
theorem submit_completion_predicate (s : Sys) (id : String) (p : SubmitPayload)
    (v : String) (m : Bool)
    (hok : (play_submit s id p).2 = SubmitResult.ok v m)
    (hplayers : ∀ q ∈ (play_submit s id p).1.usersdb,
      q.2.state = UserState.player → pyStrip q.2.text ≠ "")
    (hword : pyStrip (((play_submit s id p).1.app.word).getD "") ≠ "") :
    (play_submit s id p).1.app.state = GameState.gameWaitingForDecisionIrl := by
  by_cases hid : id = ""
  · simp [play_submit, hid] at hok
  · cases hget : getU s.usersdb id with
    | none => simp [play_submit, hid, hget] at hok
    | some u =>
      cases hu : u.state with
      | entering => simp [play_submit, hid, hget, hu] at hok
      | ready => simp [play_submit, hid, hget, hu] at hok
      | player =>
        cases ht : p.text with
        | none => simp [play_submit, hid, hget, hu, ht] at hok
        | some t =>
          by_cases hall : all_submitted
              (setU s.usersdb id (fun v => { v with text := t })) s.app.word
          · simp [play_submit, hid, hget, hu, ht, hall]
          · simp only [play_submit, if_neg hid, hget, hu, ht, hall,
              if_false, Bool.false_eq_true, if_neg] at hplayers hword
            exact absurd (all_submitted_of _ _ hplayers hword) hall
      | reader =>
        by_cases hval : p.word.getD "" = "" ∨ p.text.getD "" = ""
        · simp [play_submit, hid, hget, hu, hval] at hok
        · by_cases hall : all_submitted
              (setU s.usersdb id (fun v => { v with text := p.text.getD "" }))
              (some (p.word.getD ""))
          · simp [play_submit, hid, hget, hu, hval, hall]
          · simp only [play_submit, if_neg hid, hget, hu, hval, hall,
              if_false, Bool.false_eq_true, if_neg] at hplayers hword
            exact absurd (all_submitted_of _ _ hplayers hword) hall

end Bindolo

namespace Bindolo

theorem play_submit_cases (s : Sys) (id : String) (p : SubmitPayload) :
    (play_submit s id p).1 = s ∨
    ∃ t u, getU s.usersdb id = some u ∧
      (u.state = UserState.player ∨ u.state = UserState.reader) ∧
      (play_submit s id p).1.usersdb =
        setU s.usersdb id (fun v => { v with text := t }) ∧
      ((play_submit s id p).1.app.state = s.app.state ∨
        (play_submit s id p).1.app.state = GameState.gameWaitingForDecisionIrl) := by
  by_cases hid : id = ""
  · left; simp [play_submit, hid]
  · cases hget : getU s.usersdb id with
    | none => left; simp [play_submit, hid, hget]
    | some u =>
      cases hu : u.state with
      | entering => left; simp [play_submit, hid, hget, hu]
      | ready => left; simp [play_submit, hid, hget, hu]
      | player =>
        cases ht : p.text with
        | none => left; simp [play_submit, hid, hget, hu, ht]
        | some t =>
          right
          refine ⟨t, u, rfl, Or.inl hu, ?_⟩
          by_cases hall : all_submitted
              (setU s.usersdb id (fun v => { v with text := t })) s.app.word
          · simp [play_submit, hid, hget, hu, ht, hall]
          · simp [play_submit, hid, hget, hu, ht, hall]
      | reader =>
        by_cases hval : p.word.getD "" = "" ∨ p.text.getD "" = ""
        · left; simp [play_submit, hid, hget, hu, hval]
        · right
          refine ⟨p.text.getD "", u, rfl, Or.inr hu, ?_⟩
          by_cases hall : all_submitted
              (setU s.usersdb id (fun v => { v with text := p.text.getD "" }))
              (some (p.word.getD ""))
          · simp [play_submit, hid, hget, hu, hval, hall]
          · simp [play_submit, hid, hget, hu, hval, hall]

theorem play_submit_phase (s : Sys) (id : String) (p : SubmitPayload) :
    (play_submit s id p).1.app.state = s.app.state ∨
    (play_submit s id p).1.app.state = GameState.gameWaitingForDecisionIrl := by
  rcases play_submit_cases s id p with h | ⟨t, u, -, -, -, h⟩
  · left; rw [h]
  · exact h

end Bindolo

namespace Bindolo

/-- C10: submit has no phase precondition: the phase after any submit call
is either unchanged or the decision phase, and an existing Player (with a
`text` field) or Reader (with non-empty `word` and `text`) successfully
overwrites its submission in any phase. -/
theorem submit_no_phase_precondition (s : Sys) (id : String) (p : SubmitPayload) :
    ((play_submit s id p).1.app.state = s.app.state ∨
      (play_submit s id p).1.app.state = GameState.gameWaitingForDecisionIrl) ∧
    (∀ u, getU s.usersdb id = some u → id ≠ "" →
      (u.state = UserState.player → ∀ t, p.text = some t →
        ∃ m, (play_submit s id p).2 = SubmitResult.ok t m ∧
          getU (play_submit s id p).1.usersdb id = some { u with text := t }) ∧
      (u.state = UserState.reader → ∀ w tx, p.word = some w → p.text = some tx →
        w ≠ "" → tx ≠ "" →
        ∃ m, (play_submit s id p).2 = SubmitResult.ok tx m ∧
          getU (play_submit s id p).1.usersdb id = some { u with text := tx } ∧
          (play_submit s id p).1.app.word = some w)) := by
  refine ⟨play_submit_phase s id p, ?_⟩
  intro u hget hid
  constructor
  · intro hu t ht
    by_cases hall : all_submitted
        (setU s.usersdb id (fun v => { v with text := t })) s.app.word
    · refine ⟨true, ?_, ?_⟩ <;>
        simp [play_submit, hid, hget, hu, ht, hall, getU_setU_self]
    · refine ⟨false, ?_, ?_⟩ <;>
        simp [play_submit, hid, hget, hu, ht, hall, getU_setU_self]
  · intro hu w tx hw htx hwne htxne
    by_cases hall : all_submitted
        (setU s.usersdb id (fun v => { v with text := tx })) (some w)
    · refine ⟨true, ?_, ?_, ?_⟩ <;>
        simp [play_submit, hid, hget, hu, hall, getU_setU_self, hw, htx,
          hwne, htxne]
    · refine ⟨false, ?_, ?_, ?_⟩ <;>
        simp [play_submit, hid, hget, hu, hall, getU_setU_self, hw, htx,
          hwne, htxne]

end Bindolo

namespace Bindolo

/-- Witness for the amended C2 at the reachable definition-phase state `cx5`. -/
theorem markReady_in_late_phase_witness :
    (getU cx5.usersdb "b" = some { state := UserState.player, text := "" } ∧
      cx5.app.state = GameState.gameWaitingForDefinitions) ∧
    ((set_user_ready cx5 "b").1.app = cx5.app ∧
      getU (set_user_ready cx5 "b").1.usersdb "b" =
        some { state := UserState.ready, text := "" } ∧
      (∀ k, k ≠ "b" →
        getU (set_user_ready cx5 "b").1.usersdb k = getU cx5.usersdb k)) :=
  ⟨⟨by decide, by decide⟩,
    markReady_in_late_phase cx5 "b" { state := UserState.player, text := "" }
      (by decide) (by decide) (Or.inl (by decide))⟩

/-- Witness for the amended C4: the reader of `cx9` completes the round. -/
theorem submit_completion_predicate_witness :
    ((play_submit cx9 "a" { word := some "w", text := some "y" }).2 =
        SubmitResult.ok "y" true ∧
      (∀ q ∈ (play_submit cx9 "a" { word := some "w", text := some "y" }).1.usersdb,
        q.2.state = UserState.player → pyStrip q.2.text ≠ "") ∧
      pyStrip (((play_submit cx9 "a"
        { word := some "w", text := some "y" }).1.app.word).getD "") ≠ "") ∧
    (play_submit cx9 "a" { word := some "w", text := some "y" }).1.app.state =
      GameState.gameWaitingForDecisionIrl :=
  ⟨⟨by decide, by decide, by decide⟩,
    submit_completion_predicate cx9 "a" { word := some "w", text := some "y" }
      "y" true (by decide) (by decide) (by decide)⟩

/-- Witness for the amended C6: re-registration of `"a"` is a no-op and three
registrations of `"a"` from the empty roster leave exactly one entry. -/
theorem register_idempotent_witness :
    landing_post cx2 "a" = (cx2, LandingResult.page true false none) ∧
    countKey (registerMany init "a" 3).usersdb "a" = 1 :=
  ⟨(register_idempotent.1 cx2 "a" { state := UserState.entering, text := "" }
      (by decide) (by decide) (by decide) (by decide)).2,
    register_idempotent.2 init "a" 3 (by decide) (by decide) (by decide)
      (by decide) (by decide)⟩

/-- Witness for the amended C7 at the reachable decision-phase state `cx10`. -/
theorem reveal_for_reader_all_nonempty_texts_witness :
    getU cx10.usersdb "a" = some { state := UserState.reader, text := "y" } ∧
    ((∀ t ∈ reading_player_texts cx10 "a", t ≠ "") ∧
      (∀ t : String, t ≠ "" →
        (reading_player_texts cx10 "a").count t =
          cx10.usersdb.countP (fun p => decide (p.2.text = t)))) :=
  ⟨by decide,
    reveal_for_reader_all_nonempty_texts cx10 "a"
      { state := UserState.reader, text := "y" } (by decide) rfl⟩

/-- Witness for C10: player `"b"` overwrites its text while the phase is
already the decision phase. -/
theorem submit_no_phase_precondition_witness :
    cx10.app.state = GameState.gameWaitingForDecisionIrl ∧
    getU cx10.usersdb "b" = some { state := UserState.player, text := "x" } ∧
    (∃ m, (play_submit cx10 "b" { word := none, text := some "q" }).2 =
        SubmitResult.ok "q" m ∧
      getU (play_submit cx10 "b" { word := none, text := some "q" }).1.usersdb "b" =
        some { state := UserState.player, text := "q" }) ∧
    ((play_submit cx10 "b" { word := none, text := some "q" }).1.app.state =
        cx10.app.state ∨
      (play_submit cx10 "b" { word := none, text := some "q" }).1.app.state =
        GameState.gameWaitingForDecisionIrl) :=
  ⟨by decide, by decide,
    ((submit_no_phase_precondition cx10 "b" { word := none, text := some "q" }).2
        { state := UserState.player, text := "x" } (by decide) (by decide)).1
      rfl "q" rfl,
    (submit_no_phase_precondition cx10 "b" { word := none, text := some "q" }).1⟩

end Bindolo

namespace Bindolo

theorem roleAssigned_eq_reader (r nm : String) :
    roleAssigned r nm = UserState.reader ↔ nm = r := by
  unfold roleAssigned
  by_cases h : nm = r <;> simp [h]

theorem INV_init : INV init := by
  refine ⟨by simp [init, keysOf], by simp [init, readerCount], ?_, ?_⟩ <;>
    simp [init]

theorem readerCount_map_le (db : List (String × UserInfo))
    (f : String × UserInfo → String × UserInfo)
    (h : ∀ p ∈ db, (f p).2.state = UserState.reader → p.2.state = UserState.reader) :
    readerCount (db.map f) ≤ readerCount db := by
  unfold readerCount
  rw [List.countP_map]
  induction db with
  | nil => simp
  | cons p rest ih =>
    rw [List.countP_cons, List.countP_cons]
    have hrec := ih (fun q hq => h q (List.mem_cons_of_mem _ hq))
    by_cases hp : (f p).2.state = UserState.reader
    · have hps := h p (List.mem_cons_self _ _) hp
      have e1 : ((fun p => decide (p.2.state = UserState.reader)) ∘ f) p = true := by
        simp [Function.comp, hp]
      have e2 : (decide (p.2.state = UserState.reader)) = true := by simp [hps]
      rw [e1, e2]
      omega
    · have e1 : ((fun p => decide (p.2.state = UserState.reader)) ∘ f) p = false := by
        simp [Function.comp, hp]
      rw [e1]
      simp only [Bool.false_eq_true, if_false]
      omega

theorem readerCount_eq_of_state_eq (db : List (String × UserInfo))
    (f : String × UserInfo → String × UserInfo)
    (h : ∀ p ∈ db, (f p).2.state = p.2.state) :
    readerCount (db.map f) = readerCount db := by
  unfold readerCount
  rw [List.countP_map]
  exact countP_ext _ _ _ (fun p hp => by simp [Function.comp, h p hp])

theorem INV_check (s : Sys) (h : INV s) : INV (check_readiness s) := by
  rcases check_readiness_spec s with heq | ⟨r, hdb, hstate⟩
  · rwa [heq]
  obtain ⟨hnd, hrc, h3, h4⟩ := h
  refine ⟨?_, ?_, ?_, ?_⟩
  · rw [hdb]
    unfold keysOf at hnd ⊢
    rwa [List.map_map]
  · rw [hdb]
    unfold readerCount
    rw [List.countP_map]
    have heq : List.countP
        ((fun p => decide (p.2.state = UserState.reader)) ∘
          (fun p => (p.1, { p.2 with state := roleAssigned r p.1 })))
        s.usersdb = countKey s.usersdb r := by
      unfold countKey
      refine countP_ext _ _ _ (fun p _ => ?_)
      show decide (roleAssigned r p.1 = UserState.reader) = decide (p.1 = r)
      exact decide_eq_decide.mpr (roleAssigned_eq_reader r p.1)
    rw [heq]
    exact countKey_le_one_of_nodup hnd r
  · intro hph
    rw [hstate] at hph
    rcases hph with hph | hph <;> exact absurd hph (by simp)
  · intro _ p hp
    rw [hdb] at hp
    obtain ⟨q, hq, rfl⟩ := List.mem_map.mp hp
    show roleAssigned r q.1 ≠ UserState.entering
    unfold roleAssigned
    by_cases hqr : q.1 = r <;> simp [hqr]

end Bindolo

namespace Bindolo

theorem INV_landing (s : Sys) (id : String) (h : INV s) :
    INV (landing_post s id).1 := by
  by_cases h0 : pyStrip id = ""
  · have : (landing_post s id).1 = s := by simp [landing_post, h0]
    rwa [this]
  · by_cases h1 : s.app.state = GameState.waitingForNewPlayers
    · cases hget : getU s.usersdb (pyStrip id) with
      | some u =>
        have : (landing_post s id).1 = s := by simp [landing_post, h0, h1, hget]
        rwa [this]
      | none =>
        obtain ⟨hnd, hrc, h3, h4⟩ := h
        have hres : (landing_post s id).1 =
            { s with usersdb := s.usersdb ++ [(pyStrip id, {})] } := by
          simp [landing_post, h0, h1, hget]
        rw [hres]
        have hmem : pyStrip id ∉ keysOf s.usersdb := (getU_eq_none_iff _ _).mp hget
        refine ⟨?_, ?_, ?_, ?_⟩
        · rw [keysOf_append]
          refine List.Nodup.append hnd (List.nodup_singleton _) ?_
          intro b hb hb'
          have : b = pyStrip id := by simpa [keysOf] using hb'
          subst this
          exact hmem hb
        · unfold readerCount at hrc ⊢
          rw [List.countP_append]
          have : List.countP (fun p => decide (p.2.state = UserState.reader))
              [(pyStrip id, ({} : UserInfo))] = 0 := by simp
          omega
        · intro hph q hq
          rcases List.mem_append.mp hq with hq | hq
          · exact h3 hph q hq
          · have : q = (pyStrip id, ({} : UserInfo)) := by simpa using hq
            subst this
            exact Or.inl rfl
        · intro hph
          rw [h1] at hph
          rcases hph with hph | hph <;> exact absurd hph (by simp)
    · have : (landing_post s id).1 = s := by simp [landing_post, h0, h1]
      rwa [this]

theorem INV_ready (s : Sys) (id : String) (h : INV s) :
    INV (set_user_ready s id).1 := by
  by_cases h0 : id = ""
  · have : (set_user_ready s id).1 = s := by simp [set_user_ready, h0]
    rwa [this]
  · cases hget : getU s.usersdb id with
    | none =>
      have : (set_user_ready s id).1 = s := by simp [set_user_ready, h0, hget]
      rwa [this]
    | some u =>
      have hres : (set_user_ready s id).1 = check_readiness
          { s with usersdb := setU s.usersdb id (fun v => { v with state := UserState.ready }) } := by
        simp [set_user_ready, h0, hget]
      rw [hres]
      apply INV_check
      obtain ⟨hnd, hrc, h3, h4⟩ := h
      refine ⟨?_, ?_, ?_, ?_⟩
      · rw [keysOf_setU]; exact hnd
      · refine le_trans ?_ hrc
        unfold setU
        refine readerCount_map_le _ _ (fun p _ hp => ?_)
        by_cases hpi : p.1 = id
        · simp [hpi] at hp
        · simpa [hpi] using hp
      · intro hph q hq
        unfold setU at hq
        obtain ⟨q0, hq0, rfl⟩ := List.mem_map.mp hq
        by_cases hqi : q0.1 = id
        · simp [hqi]
        · simpa [hqi] using h3 hph q0 hq0
      · intro hph q hq
        unfold setU at hq
        obtain ⟨q0, hq0, rfl⟩ := List.mem_map.mp hq
        by_cases hqi : q0.1 = id
        · simp [hqi]
        · simpa [hqi] using h4 hph q0 hq0

theorem INV_submit (s : Sys) (id : String) (p : SubmitPayload) (h : INV s) :
    INV (play_submit s id p).1 := by
  rcases play_submit_cases s id p with heq | ⟨t, u, hget, hrole, hdb, hphase⟩
  · rwa [heq]
  obtain ⟨hnd, hrc, h3, h4⟩ := h
  have hstq : ∀ q : String × UserInfo,
      ((if q.1 = id then (q.1, { q.2 with text := t }) else q)).2.state = q.2.state := by
    intro q
    by_cases hqi : q.1 = id <;> simp [hqi]
  refine ⟨?_, ?_, ?_, ?_⟩
  · rw [hdb, keysOf_setU]; exact hnd
  · rw [hdb]
    unfold setU
    rw [readerCount_eq_of_state_eq _ _ (fun q _ => hstq q)]
    exact hrc
  · intro hph q hq
    rcases hphase with hpe | hpd
    · rw [hpe] at hph
      rw [hdb] at hq
      unfold setU at hq
      obtain ⟨q0, hq0, rfl⟩ := List.mem_map.mp hq
      rw [hstq q0]
      exact h3 hph q0 hq0
    · rw [hpd] at hph
      rcases hph with hph | hph <;> exact absurd hph (by simp)
  · intro hph q hq
    rw [hdb] at hq
    unfold setU at hq
    obtain ⟨q0, hq0, rfl⟩ := List.mem_map.mp hq
    rw [hstq q0]
    rcases hphase with hpe | hpd
    · rw [hpe] at hph
      exact h4 hph q0 hq0
    · cases hss : s.app.state with
      | gameWaitingForDefinitions => exact h4 (Or.inl hss) q0 hq0
      | gameWaitingForDecisionIrl => exact h4 (Or.inr hss) q0 hq0
      | waitingForNewPlayers =>
        have hu := h3 (Or.inl hss) (id, u) (getU_mem hget)
        rcases hrole with hr | hr <;> rcases hu with hu | hu <;> simp [hr] at hu
      | waitingForPlayers =>
        have hu := h3 (Or.inr hss) (id, u) (getU_mem hget)
        rcases hrole with hr | hr <;> rcases hu with hu | hu <;> simp [hr] at hu

end Bindolo

namespace Bindolo

theorem INV_restart (s : Sys) (id : String) (h : INV s) :
    INV (reading_restart s id).1 := by
  by_cases h0 : id = ""
  · have : (reading_restart s id).1 = s := by simp [reading_restart, h0]
    rwa [this]
  · cases hget : getU s.usersdb id with
    | none =>
      have : (reading_restart s id).1 = s := by simp [reading_restart, h0, hget]
      rwa [this]
    | some u =>
      by_cases hrole : u.state = UserState.reader
      · obtain ⟨hnd, hrc, h3, h4⟩ := h
        have hres : (reading_restart s id).1 =
            { usersdb := s.usersdb.map
                (fun p => (p.1, ({ state := UserState.entering, text := "" } : UserInfo))),
              app := { s.app with state := GameState.waitingForPlayers, word := none } } := by
          simp [reading_restart, h0, hget, hrole]
        rw [hres]
        refine ⟨?_, ?_, ?_, ?_⟩
        · unfold keysOf at hnd ⊢
          rw [List.map_map]
          exact (List.map_congr_left (fun p _ => rfl)).symm ▸ hnd
        · unfold readerCount
          rw [List.countP_map]
          have : List.countP ((fun p => decide (p.2.state = UserState.reader)) ∘
              (fun p : String × UserInfo =>
                (p.1, ({ state := UserState.entering, text := "" } : UserInfo)))) s.usersdb = 0 :=
            List.countP_eq_zero.mpr (fun a _ => by simp [Function.comp])
          omega
        · intro _ q hq
          obtain ⟨q0, _, rfl⟩ := List.mem_map.mp hq
          exact Or.inl rfl
        · intro hph
          rcases hph with hph | hph <;> exact absurd hph (by simp)
      · have : (reading_restart s id).1 = s := by simp [reading_restart, h0, hget, hrole]
        rwa [this]

theorem INV_step {s s' : Sys} (h : INV s) (hs : Step s s') : INV s' := by
  cases hs with
  | register id => exact INV_landing _ id h
  | markReady id => exact INV_ready _ id h
  | submit id p => exact INV_submit _ id p h
  | restart id => exact INV_restart _ id h

theorem reachable_INV (s : Sys) (hs : Reachable s) : INV s := by
  induction hs with
  | init => exact INV_init
  | step hr hstep ih => exact INV_step ih hstep

/-- C1 amended: in every reachable definition/decision-phase state there is
at most one READER and everyone else is a PLAYER or (after a mid-game
markReady) READY. -/
theorem def_phase_reader_invariant (s : Sys) (hs : Reachable s)
    (hphase : s.app.state = GameState.gameWaitingForDefinitions ∨
      s.app.state = GameState.gameWaitingForDecisionIrl) :
    readerCount s.usersdb ≤ 1 ∧
    ∀ p ∈ s.usersdb, p.2.state = UserState.reader ∨
      p.2.state = UserState.player ∨ p.2.state = UserState.ready := by
  obtain ⟨-, hrc, -, h4⟩ := reachable_INV s hs
  refine ⟨hrc, fun p hp => ?_⟩
  have := h4 hphase p hp
  cases hst : p.2.state with
  | entering => exact absurd hst this
  | ready => exact Or.inr (Or.inr rfl)
  | player => exact Or.inr (Or.inl rfl)
  | reader => exact Or.inl rfl

/-- Witness for the amended C1 at the reachable definition-phase state `cx5`. -/
theorem def_phase_reader_invariant_witness :
    cx5.app.state = GameState.gameWaitingForDefinitions ∧
    (readerCount cx5.usersdb ≤ 1 ∧
      ∀ p ∈ cx5.usersdb, p.2.state = UserState.reader ∨
        p.2.state = UserState.player ∨ p.2.state = UserState.ready) :=
  ⟨by decide, def_phase_reader_invariant cx5 reachable_cx5 (Or.inl (by decide))⟩

end Bindolo

namespace Bindolo

theorem registerAll_nil (s : Sys) : registerAll [] s = s := rfl

theorem registerAll_cons (b : String) (B : List String) (s : Sys) :
    registerAll (b :: B) s = registerAll B (landing_post s b).1 := rfl

theorem readyAll_nil (s : Sys) : readyAll [] s = s := rfl

theorem readyAll_cons (b : String) (B : List String) (s : Sys) :
    readyAll (b :: B) s = readyAll B (set_user_ready s b).1 := rfl

theorem submitAll_nil (r : String) (s : Sys) : submitAll [] r s = s := rfl

theorem submitAll_cons (b : String) (B : List String) (r : String) (s : Sys) :
    submitAll (b :: B) r s =
      submitAll B r (play_submit s b (roundPayload r b)).1 := rfl

theorem uReady_set : ({ uEnter with state := UserState.ready } : UserInfo) = uReady := rfl

theorem registerAll_go (B A : List String) (hnd : (A ++ B).Nodup)
    (hB : ∀ nm ∈ B, pyStrip nm = nm ∧ nm ≠ "") :
    registerAll B { usersdb := dbOf A (fun _ => uEnter), app := {} } =
    { usersdb := dbOf (A ++ B) (fun _ => uEnter), app := {} } := by
  induction B generalizing A with
  | nil => simp [registerAll_nil]
  | cons b B' ih =>
    obtain ⟨hb1, hb2⟩ := hB b (List.mem_cons_self _ _)
    have hbA : b ∉ A := fun hmem =>
      (List.disjoint_of_nodup_append hnd) hmem (List.mem_cons_self _ _)
    have hget : getU (dbOf A (fun _ => uEnter)) b = none := by
      rw [getU_dbOf]; simp [hbA]
    have h1 : (landing_post { usersdb := dbOf A (fun _ => uEnter), app := {} } b).1 =
        { usersdb := dbOf A (fun _ => uEnter) ++ [(b, ({} : UserInfo))], app := {} } := by
      rw [landing_new hb1 hb2 rfl hget]
    have h2 : dbOf A (fun _ => uEnter) ++ [(b, ({} : UserInfo))] =
        dbOf (A ++ [b]) (fun _ => uEnter) := by
      rw [dbOf_append]; rfl
    rw [registerAll_cons, h1, h2]
    have hnd' : ((A ++ [b]) ++ B').Nodup := by
      rw [List.append_assoc, List.singleton_append]; exact hnd
    have := ih (A ++ [b]) hnd'
      (fun nm hm => hB nm (List.mem_cons_of_mem _ hm))
    rw [this, List.append_assoc, List.singleton_append]

theorem mkRound_zero (names : List String) :
    mkRound names 0 = { usersdb := dbOf names (fun _ => uEnter), app := {} } := by
  unfold mkRound
  simp

theorem registerAll_spec (names : List String) (hnd : names.Nodup)
    (hnames : ∀ nm ∈ names, pyStrip nm = nm ∧ nm ≠ "") :
    registerAll names init = mkRound names 0 := by
  rw [mkRound_zero]
  have := registerAll_go names [] (by simpa using hnd) hnames
  simpa [init] using this

end Bindolo

namespace Bindolo

theorem setU_ready_split (A B' : List String) (b : String) (hbB' : b ∉ B') :
    setU (dbOf A (fun _ => uReady) ++ dbOf (b :: B') (fun _ => uEnter)) b
      (fun u => { u with state := UserState.ready }) =
    dbOf (A ++ [b]) (fun _ => uReady) ++ dbOf B' (fun _ => uEnter) := by
  rw [setU_append, setU_dbOf, setU_dbOf, dbOf_append]
  have e1 : dbOf A (fun nm =>
      if nm = b then { uReady with state := UserState.ready } else uReady) =
      dbOf A (fun _ => uReady) :=
    dbOf_congr (fun nm _ => by by_cases h : nm = b <;> simp [h, uReady])
  have e2 : dbOf (b :: B') (fun nm =>
      if nm = b then { uEnter with state := UserState.ready } else uEnter) =
      (b, uReady) :: dbOf B' (fun _ => uEnter) := by
    rw [dbOf_cons]
    congr 1
    · simp [uEnter, uReady]
    · exact dbOf_congr (fun nm hm => by
        have hne2 : nm ≠ b := fun e => hbB' (e ▸ hm)
        simp [hne2])
  rw [e1, e2, List.append_assoc]
  rfl

theorem readyAll_go (B A : List String) (app : AppState)
    (hnd : (A ++ B).Nodup) (hne : ∀ nm ∈ B, nm ≠ "") (hB : B ≠ []) :
    readyAll B
        { usersdb := dbOf A (fun _ => uReady) ++ dbOf B (fun _ => uEnter),
          app := app } =
      check_readiness { usersdb := dbOf (A ++ B) (fun _ => uReady), app := app } := by
  induction B generalizing A with
  | nil => exact absurd rfl hB
  | cons b B' ih =>
    have hb : b ≠ "" := hne b (List.mem_cons_self _ _)
    have hbB' : b ∉ B' := by
      have := (List.Nodup.of_append_right hnd)
      exact (List.nodup_cons.mp this).1
    have hkeys : b ∈ keysOf (dbOf A (fun _ => uReady) ++ dbOf (b :: B') (fun _ => uEnter)) := by
      rw [keysOf_append, keysOf_dbOf, keysOf_dbOf]
      exact List.mem_append.mpr (Or.inr (List.mem_cons_self _ _))
    obtain ⟨v, hv⟩ := getU_isSome_of_mem hkeys
    have h1 : (set_user_ready
          { usersdb := dbOf A (fun _ => uReady) ++ dbOf (b :: B') (fun _ => uEnter),
            app := app } b).1 =
        check_readiness
          { usersdb := dbOf (A ++ [b]) (fun _ => uReady) ++ dbOf B' (fun _ => uEnter),
            app := app } := by
      simp only [set_user_ready, if_neg hb, hv]
      rw [setU_ready_split A B' b hbB']
    rw [readyAll_cons, h1]
    cases hB' : B' with
    | nil =>
      rw [readyAll_nil]
      subst hB'
      rw [dbOf_nil, List.append_nil]
    | cons c B'' =>
      subst hB'
      have hcmem : ((c, uEnter) : String × UserInfo) ∈
          dbOf (A ++ [b]) (fun _ => uReady) ++ dbOf (c :: B'') (fun _ => uEnter) :=
        List.mem_append.mpr (Or.inr (mem_dbOf _ (List.mem_cons_self _ _)))
      have hnoop : check_readiness
          { usersdb := dbOf (A ++ [b]) (fun _ => uReady) ++ dbOf (c :: B'') (fun _ => uEnter),
            app := app } =
          { usersdb := dbOf (A ++ [b]) (fun _ => uReady) ++ dbOf (c :: B'') (fun _ => uEnter),
            app := app } :=
        check_readiness_not_ready hcmem (by simp [uEnter])
      rw [hnoop]
      have hnd' : ((A ++ [b]) ++ (c :: B'')).Nodup := by
        rw [List.append_assoc, List.singleton_append]; exact hnd
      have := ih (A ++ [b]) hnd'
        (fun nm hm => hne nm (List.mem_cons_of_mem _ hm)) (by simp)
      rw [this, List.append_assoc, List.singleton_append]

end Bindolo

namespace Bindolo

theorem assignRoles_dbOf (l : List String) (g : String → UserInfo) (r : String) :
    assignRoles (dbOf l g) r =
      dbOf l (fun nm => { state := roleAssigned r nm, text := (g nm).text }) := by
  rw [assignRoles_eq]
  unfold dbOf
  rw [List.map_map]
  exact List.map_congr_left (fun nm _ => rfl)

theorem readinessHolds_dbOf_ready (names : List String)
    (h3 : MINIMUM_PLAYERS ≤ names.length) :
    readinessHolds (dbOf names (fun _ => uReady)) = true := by
  unfold readinessHolds
  have hl : (dbOf names (fun _ => uReady)).length = names.length := by
    simp [dbOf]
  have hall : (dbOf names (fun _ => uReady)).all
      (fun p => decide (p.2.state = UserState.ready)) = true := by
    rw [List.all_eq_true]
    intro q hq
    obtain ⟨nm, -, rfl⟩ := List.mem_map.mp hq
    simp [uReady]
  rw [hl, hall]
  have h0 : 0 < names.length := by
    unfold MINIMUM_PLAYERS at h3
    omega
  simp [h3, h0]

theorem check_fire0 (names : List String) (h3 : MINIMUM_PLAYERS ≤ names.length) :
    check_readiness
      { usersdb := dbOf names (fun _ => uReady), app := ({} : AppState) } =
    sDef names 0 := by
  have hlen : names.length ≠ 0 := by
    unfold MINIMUM_PLAYERS at h3
    omega
  unfold check_readiness
  rw [if_pos (readinessHolds_dbOf_ready names h3)]
  rw [if_pos (Or.inr rfl)]
  rw [if_pos rfl]
  unfold fireReadiness
  simp only [keysOf_dbOf]
  have hlen2 : ¬ (names.length = 0) := hlen
  simp only [hlen2, if_false, assignRoles_dbOf]
  unfold sDef uPart
  simp [Nat.zero_mod, uReady]

theorem check_fireN (names : List String) (n : Nat)
    (h3 : MINIMUM_PLAYERS ≤ names.length) (hn : n ≠ 0) :
    check_readiness
      { usersdb := dbOf names (fun _ => uReady), app := (mkRound names n).app } =
    sDef names n := by
  have hlen : names.length ≠ 0 := by
    unfold MINIMUM_PLAYERS at h3
    omega
  have happ : (mkRound names n).app =
      { state := GameState.waitingForPlayers, word := none,
        reader_order := some names, reader_idx := n % names.length } := by
    unfold mkRound
    simp [hn]
  rw [happ]
  unfold check_readiness
  rw [if_pos (readinessHolds_dbOf_ready names h3)]
  rw [if_pos (Or.inl rfl)]
  rw [if_neg (fun hcontra => by simp at hcontra)]
  unfold fireReadiness
  simp only [hlen, if_false, assignRoles_dbOf]
  unfold sDef uPart
  have hmm : n % names.length % names.length = n % names.length :=
    Nat.mod_mod_of_dvd n (dvd_refl _)
  have hadd : (n % names.length + 1) % names.length = (n + 1) % names.length :=
    Nat.mod_add_mod n names.length 1
  simp [hmm, hadd, uReady]

end Bindolo

namespace Bindolo

theorem readyAll_round (names : List String) (n : Nat)
    (hnd : names.Nodup) (h3 : MINIMUM_PLAYERS ≤ names.length)
    (hne : ∀ nm ∈ names, nm ≠ "") :
    readyAll names (mkRound names n) = sDef names n := by
  have hBne : names ≠ [] := by
    intro h
    subst h
    unfold MINIMUM_PLAYERS at h3
    simp at h3
  have hgo := readyAll_go names [] (mkRound names n).app (by simpa using hnd) hne hBne
  have hlhs : mkRound names n =
      { usersdb := dbOf [] (fun _ => uReady) ++ dbOf names (fun _ => uEnter),
        app := (mkRound names n).app } := rfl
  rw [hlhs, hgo]
  by_cases hn : n = 0
  · subst hn
    have happ0 : (mkRound names 0).app = ({} : AppState) := by rw [mkRound_zero]
    rw [happ0]
    exact check_fire0 names h3
  · exact check_fireN names n h3 hn

end Bindolo

namespace Bindolo

theorem find_reader (l : List String) (r : String) (g : String → UserInfo)
    (hg : ∀ nm, (g nm).state = roleAssigned r nm) (hr : r ∈ l) :
    (dbOf l g).find? (fun p => decide (p.2.state = UserState.reader)) =
      some (r, g r) := by
  induction l with
  | nil => simp at hr
  | cons a l ih =>
    rw [dbOf_cons]
    by_cases ha : a = r
    · subst ha
      have hpred : (decide (((a, g a) : String × UserInfo).2.state =
          UserState.reader)) = true := by
        simp [hg a, roleAssigned]
      simp only [List.find?, hpred]
    · have hpred : (decide (((a, g a) : String × UserInfo).2.state =
          UserState.reader)) = false := by
        simp [hg a, roleAssigned, ha]
      simp only [List.find?, hpred]
      exact ih ((List.mem_cons.mp hr).resolve_left (fun e => ha e.symm))

theorem currentReader_sDef (names : List String) (n : Nat)
    (h3 : MINIMUM_PLAYERS ≤ names.length) :
    currentReader (sDef names n) = some (names.getD (n % names.length) "") := by
  have h0 : 0 < names.length := by
    unfold MINIMUM_PLAYERS at h3
    omega
  have hlt : n % names.length < names.length := Nat.mod_lt _ h0
  have hr : names.getD (n % names.length) "" ∈ names := by
    rw [List.getD_eq_getElem _ _ hlt]
    exact List.getElem_mem _
  unfold currentReader sDef
  rw [find_reader names _ (uPart _) (fun nm => rfl) hr]
  rfl

end Bindolo

namespace Bindolo

theorem setU_text_split (P S' : List String) (b r τ : String)
    (hbP : b ∉ P) (hbS' : b ∉ S') :
    setU (dbOf P (uFull r) ++ dbOf (b :: S') (uPart r)) b
      (fun v => { v with text := τ }) =
    dbOf P (uFull r) ++
      ((b, { state := roleAssigned r b, text := τ }) :: dbOf S' (uPart r)) := by
  rw [setU_append, setU_dbOf, setU_dbOf]
  have e1 : dbOf P (fun nm =>
      if nm = b then { uFull r nm with text := τ } else uFull r nm) =
      dbOf P (uFull r) :=
    dbOf_congr (fun nm hm => by
      have : nm ≠ b := fun e => hbP (e ▸ hm)
      simp [this])
  have e2 : dbOf (b :: S') (fun nm =>
      if nm = b then { uPart r nm with text := τ } else uPart r nm) =
      (b, { state := roleAssigned r b, text := τ }) :: dbOf S' (uPart r) := by
    rw [dbOf_cons]
    congr 1
    · simp [uPart]
    · exact dbOf_congr (fun nm hm => by
        have : nm ≠ b := fun e => hbS' (e ▸ hm)
        simp [this])
  rw [e1, e2]

theorem wordAt_append (r : String) (P : List String) (b : String) :
    (if b = r then some "w" else wordAt r P) = wordAt r (P ++ [b]) := by
  unfold wordAt
  by_cases hbr : b = r
  · subst hbr
    simp
  · have hrb : ¬ r = b := fun e => hbr e.symm
    have hiff : (r ∈ P ++ [b]) ↔ r ∈ P := by
      simp [List.mem_append, hrb]
    simp [hbr, hiff]

theorem all_submitted_mid (P' S' : List String) (r : String)
    (hnd : (P' ++ S').Nodup) (hS' : S' ≠ []) :
    all_submitted (dbOf P' (uFull r) ++ dbOf S' (uPart r)) (wordAt r P') = false := by
  obtain ⟨c, S'', rfl⟩ : ∃ c S'', S' = c :: S'' := by
    cases S' with
    | nil => exact absurd rfl hS'
    | cons c S'' => exact ⟨c, S'', rfl⟩
  have hcmem : ((c, uPart r c) : String × UserInfo) ∈
      dbOf P' (uFull r) ++ dbOf (c :: S'') (uPart r) :=
    List.mem_append.mpr (Or.inr (mem_dbOf _ (List.mem_cons_self _ _)))
  unfold all_submitted
  rw [List.all_eq_false]
  refine ⟨(c, uPart r c), hcmem, ?_⟩
  by_cases hcr : c = r
  · have hrP' : r ∉ P' := by
      intro hmem
      exact (List.disjoint_of_nodup_append hnd) hmem (hcr ▸ List.mem_cons_self _ _)
    have hrole : (uPart r c).state = UserState.reader := by
      simp [uPart, roleAssigned, hcr]
    have hword : wordAt r P' = none := by simp [wordAt, hrP']
    simp only [hrole, hword]
    simp
  · have hrole : (uPart r c).state = UserState.player := by
      simp [uPart, roleAssigned, hcr]
    simp only [hrole]
    simp [uPart, pyStrip]

theorem all_submitted_final (names : List String) (r : String) :
    all_submitted (dbOf names (uFull r)) (some "w") = true := by
  unfold all_submitted
  rw [List.all_eq_true]
  intro q hq
  obtain ⟨nm, -, rfl⟩ := List.mem_map.mp hq
  by_cases hnr : nm = r
  · have hrole : (uFull r nm).state = UserState.reader := by
      simp [uFull, roleAssigned, hnr]
    simp only [hrole]
    decide
  · have hrole : (uFull r nm).state = UserState.player := by
      simp [uFull, roleAssigned, hnr]
    have htext : (uFull r nm).text = "x" := by
      simp [uFull, tTarget, hnr]
    simp only [hrole, htext]
    decide

end Bindolo

namespace Bindolo

theorem submitAll_go (S P : List String) (r : String) (ro : Option (List String))
    (ri : Nat) (hnd : (P ++ S).Nodup) (hne : ∀ nm ∈ P ++ S, nm ≠ "")
    (hr : r ∈ P ++ S) (hS : S ≠ []) :
    submitAll S r
        { usersdb := dbOf P (uFull r) ++ dbOf S (uPart r),
          app := { state := GameState.gameWaitingForDefinitions, word := wordAt r P,
                   reader_order := ro, reader_idx := ri } } =
      { usersdb := dbOf (P ++ S) (uFull r),
        app := { state := GameState.gameWaitingForDecisionIrl, word := some "w",
                 reader_order := ro, reader_idx := ri } } := by
  induction S generalizing P with
  | nil => exact absurd rfl hS
  | cons b S' ih =>
    have hb : b ≠ "" := hne b (List.mem_append.mpr (Or.inr (List.mem_cons_self _ _)))
    have hbP : b ∉ P := fun hmem =>
      (List.disjoint_of_nodup_append hnd) hmem (List.mem_cons_self _ _)
    have hbS' : b ∉ S' := (List.nodup_cons.mp (List.Nodup.of_append_right hnd)).1
    have hgetP : getU (dbOf P (uFull r)) b = none := by
      rw [getU_dbOf]; simp [hbP]
    have hget : getU (dbOf P (uFull r) ++ dbOf (b :: S') (uPart r)) b =
        some (uPart r b) := by
      rw [getU_append_right _ hgetP, getU_dbOf]
      simp
    have hnd' : ((P ++ [b]) ++ S').Nodup := by
      rw [List.append_assoc, List.singleton_append]; exact hnd
    rw [submitAll_cons]
    by_cases hbr : b = r
    · have hrole : (uPart r b).state = UserState.reader := by
        simp [uPart, roleAssigned, hbr]
      have hpay : roundPayload r b =
          ({ word := some "w", text := some "y" } : SubmitPayload) := by
        simp [roundPayload, hbr]
      have hv : ¬ (("w" : String) = "" ∨ ("y" : String) = "") := by decide
      have hsplit := setU_text_split P S' b r "y" hbP hbS'
      have hsplit2 : dbOf P (uFull r) ++
          ((b, { state := roleAssigned r b, text := "y" }) :: dbOf S' (uPart r)) =
          dbOf (P ++ [b]) (uFull r) ++ dbOf S' (uPart r) := by
        rw [dbOf_append, List.append_assoc]
        have huf : ({ state := roleAssigned r b, text := "y" } : UserInfo) =
            uFull r b := by
          simp [uFull, tTarget, hbr]
        rw [huf]
        rfl
      have hw1 : wordAt r (P ++ [b]) = some "w" := by
        have : r ∈ P ++ [b] := by
          subst hbr
          exact List.mem_append.mpr (Or.inr (List.mem_singleton.mpr rfl))
        simp [wordAt, this]
      have hstep : (play_submit
          { usersdb := dbOf P (uFull r) ++ dbOf (b :: S') (uPart r),
            app := { state := GameState.gameWaitingForDefinitions,
                     word := wordAt r P, reader_order := ro, reader_idx := ri } }
          b (roundPayload r b)).1 =
          (if all_submitted (dbOf (P ++ [b]) (uFull r) ++ dbOf S' (uPart r))
              (some "w") = true then
            ({ usersdb := dbOf (P ++ [b]) (uFull r) ++ dbOf S' (uPart r),
               app := { state := GameState.gameWaitingForDecisionIrl,
                        word := some "w", reader_order := ro,
                        reader_idx := ri } } : Sys)
          else
            { usersdb := dbOf (P ++ [b]) (uFull r) ++ dbOf S' (uPart r),
              app := { state := GameState.gameWaitingForDefinitions,
                       word := some "w", reader_order := ro,
                       reader_idx := ri } }) := by
        simp only [play_submit, hpay, if_neg hb, hget, hrole, Option.getD_some,
          eq_false hv, if_false, hsplit, hsplit2]
        by_cases hall : all_submitted (dbOf (P ++ [b]) (uFull r) ++ dbOf S' (uPart r))
            (some "w") = true
        · simp only [hall, if_true]
        · simp only [hall, if_false]
          simp at hall
          simp [hall]
      rw [hstep]
      cases hS' : S' with
      | nil =>
        subst hS'
        have hfin : all_submitted (dbOf (P ++ [b]) (uFull r) ++ dbOf [] (uPart r))
            (some "w") = true := by
          rw [dbOf_nil, List.append_nil]
          exact all_submitted_final (P ++ [b]) r
        rw [if_pos hfin, submitAll_nil, dbOf_nil, List.append_nil]
      | cons c S'' =>
        subst hS'
        have hmid : all_submitted (dbOf (P ++ [b]) (uFull r) ++
            dbOf (c :: S'') (uPart r)) (wordAt r (P ++ [b])) = false :=
          all_submitted_mid (P ++ [b]) (c :: S'') r hnd' (by simp)
        rw [hw1] at hmid
        rw [if_neg (by simp [hmid])]
        have hrec := ih (P ++ [b]) hnd'
          (fun nm hm => hne nm (by
            rw [List.append_assoc, List.singleton_append] at hm
            exact hm))
          (by rw [List.append_assoc, List.singleton_append]; exact hr)
          (by simp)
        rw [hw1] at hrec
        rw [hrec, List.append_assoc, List.singleton_append]
    · have hrole : (uPart r b).state = UserState.player := by
        simp [uPart, roleAssigned, hbr]
      have hpay : roundPayload r b = ({ text := some "x" } : SubmitPayload) := by
        simp [roundPayload, hbr]
      have hsplit := setU_text_split P S' b r "x" hbP hbS'
      have hsplit2 : dbOf P (uFull r) ++
          ((b, { state := roleAssigned r b, text := "x" }) :: dbOf S' (uPart r)) =
          dbOf (P ++ [b]) (uFull r) ++ dbOf S' (uPart r) := by
        rw [dbOf_append, List.append_assoc]
        have huf : ({ state := roleAssigned r b, text := "x" } : UserInfo) =
            uFull r b := by
          simp [uFull, tTarget, hbr]
        rw [huf]
        rfl
      have hwP : wordAt r P = wordAt r (P ++ [b]) := by
        rw [← wordAt_append r P b, if_neg hbr]
      have hstep : (play_submit
          { usersdb := dbOf P (uFull r) ++ dbOf (b :: S') (uPart r),
            app := { state := GameState.gameWaitingForDefinitions,
                     word := wordAt r P, reader_order := ro, reader_idx := ri } }
          b (roundPayload r b)).1 =
          (if all_submitted (dbOf (P ++ [b]) (uFull r) ++ dbOf S' (uPart r))
              (wordAt r (P ++ [b])) = true then
            ({ usersdb := dbOf (P ++ [b]) (uFull r) ++ dbOf S' (uPart r),
               app := { state := GameState.gameWaitingForDecisionIrl,
                        word := wordAt r (P ++ [b]), reader_order := ro,
                        reader_idx := ri } } : Sys)
          else
            { usersdb := dbOf (P ++ [b]) (uFull r) ++ dbOf S' (uPart r),
              app := { state := GameState.gameWaitingForDefinitions,
                       word := wordAt r (P ++ [b]), reader_order := ro,
                       reader_idx := ri } }) := by
        simp only [play_submit, hpay, if_neg hb, hget, hrole, hsplit, hsplit2, hwP]
        by_cases hall : all_submitted (dbOf (P ++ [b]) (uFull r) ++ dbOf S' (uPart r))
            (wordAt r (P ++ [b])) = true
        · simp only [hall, if_true]
        · simp only [hall, if_false]
          simp at hall
          simp [hall]
      rw [hstep]
      cases hS' : S' with
      | nil =>
        subst hS'
        have hrP : r ∈ P := by
          have :=hr
          rw [List.mem_append] at this
          rcases this with h | h
          · exact h
          · exact absurd (List.mem_singleton.mp h).symm hbr
        have hwPb : wordAt r (P ++ [b]) = some "w" := by
          have : r ∈ P ++ [b] := List.mem_append.mpr (Or.inl hrP)
          simp [wordAt, this]
        have hfin : all_submitted (dbOf (P ++ [b]) (uFull r) ++ dbOf [] (uPart r))
            (wordAt r (P ++ [b])) = true := by
          rw [dbOf_nil, List.append_nil, hwPb]
          exact all_submitted_final (P ++ [b]) r
        rw [if_pos hfin, submitAll_nil, dbOf_nil, List.append_nil, hwPb]
      | cons c S'' =>
        subst hS'
        have hmid : all_submitted (dbOf (P ++ [b]) (uFull r) ++
            dbOf (c :: S'') (uPart r)) (wordAt r (P ++ [b])) = false :=
          all_submitted_mid (P ++ [b]) (c :: S'') r hnd' (by simp)
        rw [if_neg (by simp [hmid])]
        have hrec := ih (P ++ [b]) hnd'
          (fun nm hm => hne nm (by
            rw [List.append_assoc, List.singleton_append] at hm
            exact hm))
          (by rw [List.append_assoc, List.singleton_append]; exact hr)
          (by simp)
        rw [hrec, List.append_assoc, List.singleton_append]

end Bindolo

namespace Bindolo

theorem getD_mem_of_min (names : List String) (n : Nat)
    (h3 : MINIMUM_PLAYERS ≤ names.length) :
    names.getD (n % names.length) "" ∈ names := by
  have h0 : 0 < names.length := by
    unfold MINIMUM_PLAYERS at h3
    omega
  have hlt : n % names.length < names.length := Nat.mod_lt _ h0
  rw [List.getD_eq_getElem _ _ hlt]
  exact List.getElem_mem _

theorem submitAll_round (names : List String) (n : Nat)
    (hnd : names.Nodup) (h3 : MINIMUM_PLAYERS ≤ names.length)
    (hne : ∀ nm ∈ names, nm ≠ "") :
    submitAll names (names.getD (n % names.length) "") (sDef names n) =
      sSub names n := by
  have hr : names.getD (n % names.length) "" ∈ names := getD_mem_of_min names n h3
  have hBne : names ≠ [] := by
    intro h
    subst h
    simp at hr
  have hsdef : sDef names n =
      { usersdb := dbOf [] (uFull (names.getD (n % names.length) "")) ++
          dbOf names (uPart (names.getD (n % names.length) "")),
        app := { state := GameState.gameWaitingForDefinitions,
                 word := wordAt (names.getD (n % names.length) "") [],
                 reader_order := some names,
                 reader_idx := (n + 1) % names.length } } := by
    unfold sDef
    have h1 : wordAt (names.getD (n % names.length) "") [] = none := by
      simp [wordAt]
    rw [h1]
    rfl
  rw [hsdef]
  rw [submitAll_go names [] (names.getD (n % names.length) "") (some names)
    ((n + 1) % names.length) (by simpa using hnd) (by simpa using hne)
    (by simpa using hr) hBne]
  rfl

theorem restart_round (names : List String) (n : Nat)
    (h3 : MINIMUM_PLAYERS ≤ names.length) (hne : ∀ nm ∈ names, nm ≠ "") :
    (reading_restart (sSub names n) (names.getD (n % names.length) "")).1 =
      mkRound names (n + 1) := by
  have hr : names.getD (n % names.length) "" ∈ names := getD_mem_of_min names n h3
  have hrne : names.getD (n % names.length) "" ≠ "" := hne _ hr
  have hget : getU (sSub names n).usersdb (names.getD (n % names.length) "") =
      some (uFull (names.getD (n % names.length) "")
        (names.getD (n % names.length) "")) := by
    show getU (dbOf names _) _ = _
    rw [getU_dbOf, if_pos hr]
  have hrole : (uFull (names.getD (n % names.length) "")
      (names.getD (n % names.length) "")).state = UserState.reader := by
    simp [uFull, roleAssigned]
  have hres : (reading_restart (sSub names n)
      (names.getD (n % names.length) "")).1 =
      { usersdb := (sSub names n).usersdb.map
          (fun p => (p.1, ({ state := UserState.entering, text := "" } : UserInfo))),
        app := { (sSub names n).app with
                 state := GameState.waitingForPlayers, word := none } } := by
    unfold reading_restart
    rw [if_neg hrne]
    simp only [hget]
    rw [if_neg (by intro hcontra; exact hcontra hrole)]
  rw [hres]
  have hdb : (sSub names n).usersdb.map
      (fun p => (p.1, ({ state := UserState.entering, text := "" } : UserInfo))) =
      dbOf names (fun _ => uEnter) := by
    show (dbOf names _).map _ = _
    unfold dbOf
    rw [List.map_map]
    exact List.map_congr_left (fun nm _ => rfl)
  rw [hdb]
  unfold mkRound sSub
  simp

theorem playRound_spec (names : List String) (n : Nat)
    (hnd : names.Nodup) (h3 : MINIMUM_PLAYERS ≤ names.length)
    (hne : ∀ nm ∈ names, nm ≠ "") :
    playRound names (mkRound names n) =
      (some (names.getD (n % names.length) ""), mkRound names (n + 1)) := by
  simp only [playRound]
  rw [readyAll_round names n hnd h3 hne, currentReader_sDef names n h3]
  simp only []
  rw [submitAll_round names n hnd h3 hne, restart_round names n h3 hne]

theorem playRounds_spec (names : List String) (N : Nat) (n : Nat)
    (hnd : names.Nodup) (h3 : MINIMUM_PLAYERS ≤ names.length)
    (hne : ∀ nm ∈ names, nm ≠ "") :
    (playRounds names N (mkRound names n)).1 =
      (List.range N).map (fun i => some (names.getD ((n + i) % names.length) "")) := by
  induction N generalizing n with
  | zero => simp [playRounds]
  | succ N ih =>
    simp only [playRounds]
    rw [playRound_spec names n hnd h3 hne]
    simp only []
    rw [ih (n + 1)]
    rw [List.range_succ_eq_map]
    simp only [List.map_cons, List.map_map, Nat.add_zero]
    congr 1
    refine List.map_congr_left (fun i _ => ?_)
    have he : n + 1 + i = n + (i + 1) := by omega
    rw [he]
    rfl

/-- C3: with a roster of K registered names (K at least the minimum player
count), playing N consecutive rounds assigns the Reader of round i
(0-indexed) to the participant at position i mod K of the registration
order: the reader sequence is the registration order repeated cyclically. -/
theorem reader_rotation_round_robin (names : List String) (N : Nat)
    (hnd : names.Nodup) (h3 : MINIMUM_PLAYERS ≤ names.length)
    (hnames : ∀ nm ∈ names, pyStrip nm = nm ∧ nm ≠ "") :
    (playRounds names N (registerAll names init)).1 =
      (List.range N).map (fun i => some (names.getD (i % names.length) "")) := by
  rw [registerAll_spec names hnd hnames]
  have hne : ∀ nm ∈ names, nm ≠ "" := fun nm hm => (hnames nm hm).2
  rw [playRounds_spec names N 0 hnd h3 hne]
  simp

/-- Witness for C3 with roster `["aa", "bb", "cc"]` over 5 rounds. -/
theorem reader_rotation_round_robin_witness :
    ((["aa", "bb", "cc"] : List String).Nodup ∧
      MINIMUM_PLAYERS ≤ (["aa", "bb", "cc"] : List String).length ∧
      (∀ nm ∈ (["aa", "bb", "cc"] : List String), pyStrip nm = nm ∧ nm ≠ "")) ∧
    (playRounds ["aa", "bb", "cc"] 5 (registerAll ["aa", "bb", "cc"] init)).1 =
      (List.range 5).map (fun i =>
        some ((["aa", "bb", "cc"] : List String).getD
          (i % (["aa", "bb", "cc"] : List String).length) "")) :=
  ⟨⟨by decide, by decide, by decide⟩,
    reader_rotation_round_robin ["aa", "bb", "cc"] 5 (by decide) (by decide)
      (by decide)⟩

end Bindolo
